import Mathlib

/-!
Verification of the `ament_ikos` result-aggregation pipeline
(`ament_ikos/main.py`) against its natural-language specification.

The Python module is shallowly embedded: the filesystem is passed in
explicitly (the recursive directory listing as a list of path strings, the
parsed per-target JUnit XML documents as a partial map from path to
document), external subprocesses (`ikos`, `ikos-report`) are oracles
supplied through a `World` structure, and exceptions become `Except`.
Python floats are modelled as IEEE-754 binary64 values (`F64`): `float()`
of a decimal literal rounds correctly to the nearest double, `+` rounds
the exact sum, and `str()` prints the shortest decimal that converts back
to the same double. `sorted()` over `pathlib.Path` objects compares the
slash-separated component tuples of the paths (`PurePath` ordering), not
the whole path strings.
-/

/- ## String utilities (os.path and str helpers) -/

/-- Python `str.rfind(c)` over the character list of a string: index of the
last occurrence of `c`, or `-1` when absent. -/
def rfindChar (l : List Char) (c : Char) : Int :=
  match l.reverse.findIdx? (fun x => x = c) with
  | none => -1
  | some i => (l.length : Int) - 1 - (i : Int)

/-- Embeds `os.path.splitext` (POSIX): split at the last dot of the final
path segment, unless the segment consists only of leading dots up to that
point (so `.bashrc` keeps its dot). -/
def splitext (p : String) : String × String :=
  let l := p.data
  let sepIndex := rfindChar l '/'
  let dotIndex := rfindChar l '.'
  if sepIndex < dotIndex then
    let nameStart := (sepIndex + 1).toNat
    let dotN := dotIndex.toNat
    if ((l.drop nameStart).take (dotN - nameStart)).any (fun c => c ≠ '.') then
      (⟨l.take dotN⟩, ⟨l.drop dotN⟩)
    else (p, "")
  else (p, "")

/-- Embeds `os.path.basename` (POSIX): everything after the last slash. -/
def basename (p : String) : String :=
  ⟨p.data.drop ((rfindChar p.data '/') + 1).toNat⟩

/-- Python `needle in hay` on strings, over character lists. -/
def listContainsSub : List Char → List Char → Bool
  | hay, needle =>
    needle.isPrefixOf hay ||
      match hay with
      | [] => false
      | _ :: t => listContainsSub t needle

/-- Python `needle in hay` substring test on strings. -/
def strContainsSub (hay needle : String) : Bool :=
  listContainsSub hay.data needle.data

/-- Test that `p` ends with `ext`; this is what matching the glob pattern
`**/*<ext>` amounts to when `ext` contains no slash. -/
def endsWithExt (p ext : String) : Bool :=
  ext.data.isSuffixOf p.data

/-- Split a character list at every occurrence of `c` (Python
`str.split(c)` shape: `n` separators yield `n+1` pieces). -/
def splitOnChar (c : Char) : List Char → List (List Char)
  | [] => [[]]
  | x :: xs =>
    let r := splitOnChar c xs
    if x = c then [] :: r
    else
      match r with
      | [] => [[x]]
      | h :: t => (x :: h) :: t

/-- Python `<` on strings over their character lists: strict lexicographic
comparison of the code points. -/
def listCharLt : List Char → List Char → Bool
  | [], [] => false
  | [], _ :: _ => true
  | _ :: _, [] => false
  | x :: xs, y :: ys =>
    if x = y then listCharLt xs ys else decide (x < y)

/-- Python `a < b` on strings. -/
def strLt (a b : String) : Bool :=
  listCharLt a.data b.data

/- ## Decimal rendering and parsing (Python str/int/float) -/

/-- Character for a single decimal digit value. -/
def digitChar (d : Nat) : Char :=
  Char.ofNat (48 + d)

/-- Numeric value of a decimal digit character. -/
def digitVal (c : Char) : Nat :=
  c.toNat - 48

/-- Value of a big-endian decimal digit list. -/
def digitsVal (l : List Char) : Nat :=
  l.foldl (fun n c => 10 * n + digitVal c) 0

/-- Fuel-driven decimal digit expansion (structural, so the kernel can
evaluate it); `natToDigits` supplies sufficient fuel. -/
def natToDigitsAux : Nat → Nat → List Char
  | 0, _ => []
  | fuel + 1, n =>
    if n < 10 then [digitChar n]
    else natToDigitsAux fuel (n / 10) ++ [digitChar (n % 10)]

/-- Big-endian decimal digits of a natural number. -/
def natToDigits (n : Nat) : List Char :=
  natToDigitsAux (n + 1) n

/-- Python `str` of a non-negative integer. -/
def natToString (n : Nat) : String :=
  ⟨natToDigits n⟩

/-- Python `str` of an integer. -/
def intToString (i : Int) : String :=
  if i < 0 then "-" ++ natToString i.natAbs else natToString i.natAbs

/-- Parse a non-empty all-digit character list, as Python `int` does after
sign stripping (whitespace and underscore forms are not modelled). -/
def pyNat? (l : List Char) : Option Nat :=
  if l.isEmpty then none
  else if l.all Char.isDigit then some (digitsVal l) else none

/-- Embeds Python `int(s)` on the strings the reports contain: an optional
sign followed by decimal digits; anything else raises, modelled as `none`. -/
def pyInt? (s : String) : Option Int :=
  match s.data with
  | [] => none
  | c :: rest =>
    if c = '-' then (pyNat? rest).map (fun n => -(n : Int))
    else if c = '+' then (pyNat? rest).map (fun n => (n : Int))
    else (pyNat? (c :: rest)).map (fun n => (n : Int))

/-- Exact decimal literal, the value `mantissa / 10 ^ exp`: the text form
a `time` attribute carries before Python `float()` rounds it to a
binary64 (see `decToF64`). -/
structure DecNum where
  mantissa : Int
  exp : Nat
deriving DecidableEq

/-- Zero-pad a digit list on the left to width `k`. -/
def zeroPad (l : List Char) (k : Nat) : List Char :=
  List.replicate (k - l.length) '0' ++ l

/-- Parse an unsigned decimal literal (digits, optionally with a decimal
point) into its exact decimal value. -/
def pyFloatCore (l : List Char) : Option DecNum :=
  match splitOnChar '.' l with
  | [ip] => (pyNat? ip).map (fun n => ⟨(n : Int), 0⟩)
  | [ip, fp] =>
    if ip.isEmpty && fp.isEmpty then none
    else if ip.all Char.isDigit && fp.all Char.isDigit then
      some ⟨(digitsVal ip * 10 ^ fp.length + digitsVal fp : Nat), fp.length⟩
    else none
  | _ => none

/-- Decimal literal denoted by a report string: optional sign, digits,
optional fraction (exponent and special forms are not modelled);
anything else makes Python `float()` raise, modelled as `none`. -/
def pyFloatLit? (s : String) : Option DecNum :=
  match s.data with
  | [] => none
  | c :: rest =>
    if c = '-' then (pyFloatCore rest).map (fun d => ⟨-d.mantissa, d.exp⟩)
    else if c = '+' then pyFloatCore rest
    else pyFloatCore (c :: rest)

/- ## IEEE-754 binary64 (Python float) -/

/-- Finite IEEE-754 binary64 value, stored exactly as `m * 2 ^ e` in the
canonical form `roundRatF64` produces: for nonzero values
`2 ^ 52 ≤ |m| < 2 ^ 53`, except in the subnormal range where `e = -1074`
and `|m| < 2 ^ 52`. Infinities and NaNs lie outside the model. -/
structure F64 where
  m : Int
  e : Int
deriving DecidableEq

/-- Fuel-driven bit length (structural, so the kernel can evaluate it). -/
def bitlenAux : Nat → Nat → Nat
  | 0, _ => 0
  | fuel + 1, n => if n = 0 then 0 else 1 + bitlenAux fuel (n / 2)

/-- Bit length: `2 ^ (bitlen n - 1) ≤ n < 2 ^ bitlen n` for positive `n`. -/
def bitlen (n : Nat) : Nat :=
  bitlenAux (n + 1) n

/-- Round-half-to-even of `(n / d) / 2 ^ E` to an integer. -/
def roundAt2 (n d : Nat) (E : Int) : Nat :=
  let P := n * 2 ^ (-E).toNat
  let Q := d * 2 ^ E.toNat
  let q := P / Q
  let r := P % Q
  if Q < 2 * r then q + 1
  else if 2 * r < Q then q
  else if q % 2 = 0 then q else q + 1

/-- Binary64 significand and exponent of a positive rational `n / d`:
nearest representable value, ties to even. The first exponent guess from
the bit lengths can be one too small; one upward correction plus the
carry after rounding restores `2 ^ 52 ≤ M < 2 ^ 53` (or the subnormal
clamp at `-1074`). -/
def roundPosF64 (n d : Nat) : Nat × Int :=
  let E0 : Int := (bitlen n : Int) - (bitlen d : Int) - 53
  let E1 : Int := if E0 < -1074 then -1074 else E0
  let q := (n * 2 ^ (-E1).toNat) / (d * 2 ^ E1.toNat)
  let E2 : Int := if 2 ^ 53 ≤ q then E1 + 1 else E1
  let M := roundAt2 n d E2
  if 2 ^ 53 ≤ M then (2 ^ 52, E2 + 1) else (M, E2)

/-- Correctly rounded binary64 of the rational `num / den`, with the zero
result canonical. -/
def roundRatF64 (num : Int) (den : Nat) : F64 :=
  if num = 0 then ⟨0, 0⟩
  else
    let p := roundPosF64 num.natAbs den
    if p.1 = 0 then ⟨0, 0⟩
    else if num < 0 then ⟨-(p.1 : Int), p.2⟩ else ⟨(p.1 : Int), p.2⟩

/-- Python `float` of a decimal literal: CPython converts with correct
rounding to the nearest binary64. -/
def decToF64 (d : DecNum) : F64 :=
  roundRatF64 d.mantissa (10 ^ d.exp)

/-- IEEE binary64 addition (Python `+` on floats): the exact sum of the
two represented values, rounded back to binary64. -/
def F64.add (a b : F64) : F64 :=
  let e := min a.e b.e
  let S : Int := a.m * 2 ^ (a.e - e).toNat + b.m * 2 ^ (b.e - e).toNat
  if 0 ≤ e then roundRatF64 (S * 2 ^ e.toNat) 1
  else roundRatF64 S (2 ^ (-e).toNat)

/-- Embeds Python `float(s)` on the strings the reports contain: the
decimal literal, correctly rounded to binary64. -/
def pyFloat? (s : String) : Option F64 :=
  (pyFloatLit? s).map decToF64

/-- Largest `p` at or above the start value with `d * 10 ^ p ≤ n`
(fuel-driven search). -/
def floorLog10Aux : Nat → Nat → Nat → Nat → Nat
  | 0, _, _, p => p
  | fuel + 1, n, d, p =>
    if d * 10 ^ (p + 1) ≤ n then floorLog10Aux fuel n d (p + 1) else p

/-- Smallest `q` at or above the start value with `d ≤ n * 10 ^ q`
(fuel-driven search). -/
def negLog10Aux : Nat → Nat → Nat → Nat → Nat
  | 0, _, _, q => q
  | fuel + 1, n, d, q =>
    if d ≤ n * 10 ^ q then q else negLog10Aux fuel n d (q + 1)

/-- Floor of `log10 (n / d)` for a positive rational; the fuel comfortably
covers the binary64 magnitude range. -/
def floorLog10 (n d : Nat) : Int :=
  if d ≤ n then (floorLog10Aux 400 n d 0 : Int)
  else -(negLog10Aux 400 n d 1 : Int)

/-- Round-half-to-even of `(n / d) / 10 ^ t` to an integer. -/
def roundAt10 (n d : Nat) (t : Int) : Nat :=
  let P := n * 10 ^ (-t).toNat
  let Q := d * 10 ^ t.toNat
  let q := P / Q
  let r := P % Q
  if Q < 2 * r then q + 1
  else if 2 * r < Q then q
  else if q % 2 = 0 then q else q + 1

/-- The binary64 nearest to `D * 10 ^ t` for natural `D`. -/
def f64OfDec (D : Nat) (t : Int) : F64 :=
  if 0 ≤ t then roundRatF64 ((D * 10 ^ t.toNat : Nat) : Int) 1
  else roundRatF64 (D : Int) (10 ^ (-t).toNat)

/-- Shortest-round-trip digits of the positive double `x`, whose exact
value is `n / d` with decimal exponent `p`: the fewest significant digits
whose correctly rounded decimal converts back to exactly `x`, as the
CPython repr algorithm produces. Returns the digit block and the decimal
exponent (bumped by one when rounding overflows to the next power of
ten); 17 digits always round-trip, so the fuel of 18 is never exhausted. -/
def shortestAux (x : F64) (n d : Nat) (p : Int) : Nat → Nat → Nat × Int
  | 0, _ => (roundAt10 n d (p - 16), p)
  | fuel + 1, k =>
    let t := p - (k : Int) + 1
    let D := roundAt10 n d t
    if D = 10 ^ k then
      if f64OfDec 1 (p + 1) = x then (1, p + 1)
      else shortestAux x n d p fuel (k + 1)
    else if f64OfDec D t = x then (D, p)
    else shortestAux x n d p fuel (k + 1)

/-- Python `str` on a finite double: `0.0` for zero, otherwise the
shortest round-trip digits, written positionally when the decimal
exponent lies in `[-4, 16)` and in `e±dd` scientific notation otherwise
(the negative-zero distinction is outside the model). -/
def f64Str (x : F64) : String :=
  if x.m = 0 then "0.0"
  else
    let sign : String := if x.m < 0 then "-" else ""
    let n := x.m.natAbs * 2 ^ x.e.toNat
    let d := 2 ^ (-x.e).toNat
    let p0 := floorLog10 n d
    let xabs : F64 := if x.m < 0 then ⟨-x.m, x.e⟩ else x
    let dp := shortestAux xabs n d p0 18 1
    let digits := natToDigits dp.1
    let p := dp.2
    let k := digits.length
    if p < -4 ∨ 16 ≤ p then
      let mant : String :=
        if k = 1 then ⟨digits⟩
        else (⟨digits.take 1⟩ : String) ++ "." ++ (⟨digits.drop 1⟩ : String)
      let esign : String := if p < 0 then "-" else "+"
      sign ++ mant ++ "e" ++ esign ++ (⟨zeroPad (natToDigits p.natAbs) 2⟩ : String)
    else if 0 ≤ p then
      let ip := p.toNat + 1
      if k ≤ ip then
        sign ++ (⟨digits ++ List.replicate (ip - k) '0'⟩ : String) ++ ".0"
      else
        sign ++ (⟨digits.take ip⟩ : String) ++ "." ++ (⟨digits.drop ip⟩ : String)
    else
      sign ++ "0." ++ (⟨List.replicate ((-p).toNat - 1) '0' ++ digits⟩ : String)

/- ## XML elements (xml.etree.ElementTree) -/

/-- An XML element as ElementTree presents it: a tag, an ordered attribute
dictionary, and child elements. Text content plays no role in the
aggregation logic and is omitted. -/
inductive Elem where
  | mk (tag : String) (attrib : List (String × String)) (children : List Elem)

/-- Tag of an element. -/
def Elem.tag : Elem → String
  | .mk t _ _ => t

/-- Attribute dictionary of an element. -/
def Elem.attrib : Elem → List (String × String)
  | .mk _ a _ => a

/-- Children of an element. -/
def Elem.children : Elem → List Elem
  | .mk _ _ c => c

/-- Dictionary lookup `attrib[k]`, `none` when the key is absent (a
`KeyError` in Python). -/
def getAttr : List (String × String) → String → Option String
  | [], _ => none
  | (k, v) :: rest, key => if k = key then some v else getAttr rest key

/-- Dictionary update `attrib[k] = v`: replace the existing entry in place,
or append a new one (insertion-ordered dict semantics). -/
def setAttr (a : List (String × String)) (key v : String) :
    List (String × String) :=
  if a.any (fun p => p.1 = key) then
    a.map (fun p => if p.1 = key then (key, v) else p)
  else a ++ [(key, v)]

/-- Attribute lookup on an element. -/
def Elem.getA (e : Elem) (k : String) : Option String :=
  getAttr e.attrib k

/-- Attribute update on an element. -/
def Elem.setA (e : Elem) (k v : String) : Elem :=
  .mk e.tag (setAttr e.attrib k v) e.children

/-- Embeds `int(root.attrib[k])`: `none` when the key is missing or the
value fails to parse (both raise in Python). -/
def pyIntAttr (e : Elem) (k : String) : Option Int :=
  (e.getA k).bind pyInt?

/-- Embeds `float(root.attrib[k])`. -/
def pyFloatAttr (e : Elem) (k : String) : Option F64 :=
  (e.getA k).bind pyFloat?

/-- Number of `failure` elements in a forest, descending into every
subtree (the recursion behind `findall('.//failure')`). -/
def countFailuresList : List Elem → Nat
  | [] => 0
  | .mk t _ cs :: rest =>
    (if t = "failure" then 1 else 0) + countFailuresList cs +
      countFailuresList rest

/-- Embeds `len(root.findall('.//failure'))`: the number of `failure`
nodes strictly below the root, at any depth. -/
def numFailureNodes : Elem → Nat
  | .mk _ _ cs => countFailuresList cs

/- ## Marker scanner (scan_marker_files) -/

/-- Extension of the marker files left by the build step. -/
def IKOS_MARKER_FILE_EXT : String := ".ikosbin"

/-- Extension appended to the executable path to name the result database. -/
def IKOS_DB_FILE_EXT : String := ".ikosdb"

/-- Slash-separated components of a path string: the parts tuple along
which `pathlib.PurePath` orders paths. -/
def pathParts (p : String) : List String :=
  (splitOnChar '/' p.data).map (fun l => (⟨l⟩ : String))

/-- Lexicographic order on component lists, each component compared as a
string — the tuple comparison behind `PurePath.__lt__`. -/
def partsLe : List String → List String → Bool
  | [], _ => true
  | _ :: _, [] => false
  | x :: xs, y :: ys => if x = y then partsLe xs ys else strLt x y

/-- The comparison `sorted()` applies to two `pathlib.Path` glob results:
componentwise tuple order of the paths, not whole-string order. -/
def pathLe (a b : String) : Bool :=
  partsLe (pathParts a) (pathParts b)

/-- Embeds `scan_marker_files`. The recursive directory listing
(`Path(directory).glob('**/*' + IKOS_MARKER_FILE_EXT)`) is supplied as the
list `tree` of path strings exactly as `str(path)` renders them; the glob
keeps the entries ending in the marker extension, `sorted` orders the
`Path` objects by their component tuples (`pathLe`), and the
`remove_cmake_compiler_test_files` filter drops every path containing the
substring `/CMakeFiles/`. -/
def scan_marker_files (tree : List String) : List String :=
  (List.insertionSort (fun a b : String => pathLe a b = true)
      (tree.filter (fun p => endsWithExt p IKOS_MARKER_FILE_EXT))).filter
    (fun p => !strContainsSub p "/CMakeFiles/")

/-- Spec-side predicate, from the specification's words: the path lies
beneath a directory whose segment name is `CMakeFiles` (some non-final
slash-separated segment equals `CMakeFiles`). Used to compare the
specified exclusion with the substring test the code performs. -/
def underCMakeFiles (p : String) : Bool :=
  ((splitOnChar '/' p.data).dropLast).any (fun seg => seg = "CMakeFiles".data)

/- ## Analyzer invoker (path derivations and per-marker processing) -/

/-- Embeds the report path computed by `generate_ikos_report`:
`f'{os.path.splitext(ikos_db_path)[0]}.{format_ext}'`. -/
def report_filename (ikos_db_path format_ext : String) : String :=
  (splitext ikos_db_path).1 ++ "." ++ format_ext

/-- Embeds the sibling report path the aggregator reads:
`os.path.splitext(db_filename)[0] + '.junit.xml'`. -/
def junit_xml_filename (db_filename : String) : String :=
  (splitext db_filename).1 ++ ".junit.xml"

/-- The external world the pipeline interacts with: the JSON decode of
each marker file (`none` when the file is not valid JSON or lacks the
`bc`/`exe` key, both of which raise), the exit status of the external
`ikos` analyzer run as a function of its two path arguments, and the
parse of each per-target JUnit XML file (`none` when the file is missing
or malformed, both of which raise in `ET.parse`). -/
structure World where
  markers : String → Option (String × String)
  runIkosOk : String → String → Bool
  reports : String → Option Elem

/-- Embeds `process_marker_file`: decode the marker JSON (a decode or key
error raises and is modelled as `Except.error`), derive the database path
`exe + IKOS_DB_FILE_EXT`, run the analyzer, and return the database path
on success or `none` on analysis failure. The report-generation
subprocesses only write files read back later through `World.reports` and
return nothing, so they do not appear in the value. -/
def process_marker_file (w : World) (marker_file : String) :
    Except String (Option String) :=
  match w.markers marker_file with
  | none => .error ("invalid marker file " ++ marker_file)
  | some (bc_path, exe) =>
    let ikos_db_path := exe ++ IKOS_DB_FILE_EXT
    if w.runIkosOk bc_path ikos_db_path then .ok (some ikos_db_path)
    else .ok none

/-- The marker-processing loop of `main`: process each marker in order and
collect the database paths of the successful analyses; a marker error
aborts the loop (the exception propagates out of `main`). -/
def collect_db_files (w : World) : List String → Except String (List String)
  | [] => .ok []
  | m :: ms =>
    match process_marker_file w m with
    | .error e => .error e
    | .ok none => collect_db_files w ms
    | .ok (some db) => (collect_db_files w ms).map (fun rest => db :: rest)

/-- Database path contributed by one marker: the derived path when the
marker decodes and the analyzer succeeds, `none` when the analyzer fails.
Markers that fail to decode abort the run instead (see
`process_marker_file`). -/
def successDb (w : World) (m : String) : Option String :=
  match w.markers m with
  | none => none
  | some (bc_path, exe) =>
    if w.runIkosOk bc_path (exe ++ IKOS_DB_FILE_EXT) then
      some (exe ++ IKOS_DB_FILE_EXT)
    else none

/- ## Report aggregator (aggregate_junit_xml_files) -/

/-- Per-report fixup performed inside the aggregation loop: rename the
root to the basename of the database stem
(`root.attrib['name'] = os.path.basename(os.path.splitext(db_filename)[0])`),
then overwrite the self-reported `failures` attribute with the count of
`failure` nodes actually present
(`root.attrib['failures'] = str(len(root.findall('.//failure')))`). -/
def fixupReport (root : Elem) (db_filename : String) : Elem :=
  let root1 := root.setA "name" (basename (splitext db_filename).1)
  root1.setA "failures" (natToString (numFailureNodes root1))

/-- The aggregation loop over the database filenames, carrying the running
totals and the children accumulated so far. Each step parses the sibling
JUnit file (a missing or malformed file raises), applies `fixupReport`,
folds `int(tests)`, `int(errors)`, `int(failures)` (read back after the
rewrite) and `float(time)` into the totals, and appends the fixed-up root
as the next child. -/
def aggregateLoop (fs : String → Option Elem) :
    List String → Int → Int → Int → F64 → List Elem →
      Except String (Int × Int × Int × F64 × List Elem)
  | [], total_tests, total_errors, total_failures, total_time, acc =>
    .ok (total_tests, total_errors, total_failures, total_time, acc)
  | db :: rest, total_tests, total_errors, total_failures, total_time, acc =>
    match fs (junit_xml_filename db) with
    | none => .error ("cannot parse " ++ junit_xml_filename db)
    | some root =>
      let root2 := fixupReport root db
      match pyIntAttr root2 "tests" with
      | none => .error "tests"
      | some t =>
        match pyIntAttr root2 "errors" with
        | none => .error "errors"
        | some e =>
          match pyIntAttr root2 "failures" with
          | none => .error "failures"
          | some f =>
            match pyFloatAttr root2 "time" with
            | none => .error "time"
            | some s =>
              aggregateLoop fs rest (total_tests + t) (total_errors + e)
                (total_failures + f) (total_time.add s) (acc ++ [root2])

/-- The `<testsuites>` element assembled at the end of
`aggregate_junit_xml_files`: `name` is set before the loop, the four
totals after it, in that dictionary order. -/
def topElem (summary_name : String) (total_tests total_errors total_failures : Int)
    (total_time : F64) (children : List Elem) : Elem :=
  .mk "testsuites"
    (setAttr
      (setAttr
        (setAttr
          (setAttr (setAttr [] "name" summary_name) "tests"
            (intToString total_tests))
          "errors" (intToString total_errors))
        "failures" (intToString total_failures))
      "time" (f64Str total_time)) children

/-- Embeds `aggregate_junit_xml_files` as a pure function from the parsed
report files to the aggregate document (or the exception raised). The
serialization to `summary_filename` is modelled separately by
`aggregate_junit_xml_files_run`. -/
def aggregate_junit_xml_files (fs : String → Option Elem)
    (ikos_db_filenames : List String) (summary_name : String) :
    Except String Elem :=
  match aggregateLoop fs ikos_db_filenames 0 0 0 ⟨0, 0⟩ [] with
  | .error e => .error e
  | .ok (total_tests, total_errors, total_failures, total_time, children) =>
    .ok (topElem summary_name total_tests total_errors total_failures
      total_time children)

/-- State of the output file path after the function returns. -/
inductive OutFile where
  | absent
  | emptyFile
  | withContent (e : Elem)

/-- Embeds the effect of `aggregate_junit_xml_files` on its output path:
`open(summary_filename, 'wb')` creates or truncates the file on entry,
before any report is read, and the single `xunit_file.write` happens only
after the loop completes; an exception raised inside the `with` block
therefore leaves the file in existence but empty. -/
def aggregate_junit_xml_files_run (fs : String → Option Elem)
    (ikos_db_filenames : List String) (summary_filename summary_name : String) :
    OutFile × Except String Elem :=
  match aggregate_junit_xml_files fs ikos_db_filenames summary_name with
  | .error e => (.emptyFile, .error e)
  | .ok agg => (.withContent agg, .ok agg)

/- ## Pipeline driver (main) -/

/-- Embeds `main`. The directory listing is supplied as `tree` (see
`scan_marker_files`); `xunit_file` and `sarif_file` are the optional CLI
flags. The value is the exit status together with the aggregate document
written to the xunit path (`none` when no aggregate report is produced);
`aggregate_sarif_files` is a no-op upstream and contributes nothing. An
uncaught exception is an `Except.error`. -/
def mainRun (w : World) (tree : List String) (directory : String)
    (xunit_file sarif_file : Option String) :
    Except String (Nat × Option Elem) :=
  let marker_files := scan_marker_files tree
  if marker_files.isEmpty then .ok (0, none)
  else
    match collect_db_files w marker_files with
    | .error e => .error e
    | .ok ikos_db_files =>
      let test_name := basename directory ++ ".ikos"
      match xunit_file with
      | none => .ok (0, none)
      | some _ =>
        match aggregate_junit_xml_files w.reports ikos_db_files test_name with
        | .error e => .error e
        | .ok agg => .ok (0, some agg)

/- ## Lemmas: attribute dictionaries -/

theorem getAttr_none_of_any_false {a : List (String × String)} {key : String}
    (h : a.any (fun p => p.1 = key) = false) : getAttr a key = none := by
  induction a with
  | nil => rfl
  | cons hd tl ih =>
    obtain ⟨k, v⟩ := hd
    simp only [List.any_cons, Bool.or_eq_false_iff, decide_eq_false_iff_not] at h
    simp only [getAttr, if_neg h.1]
    exact ih h.2

theorem getAttr_append_single_self {a : List (String × String)} {key v : String}
    (h : getAttr a key = none) : getAttr (a ++ [(key, v)]) key = some v := by
  induction a with
  | nil => simp [getAttr]
  | cons hd tl ih =>
    obtain ⟨k0, v0⟩ := hd
    simp only [getAttr] at h
    by_cases hk : k0 = key
    · simp [hk] at h
    · simp only [List.cons_append, getAttr, if_neg hk]
      exact ih (by simpa [if_neg hk] using h)

theorem getAttr_append_single_ne {a : List (String × String)} {k v key : String}
    (h : key ≠ k) : getAttr (a ++ [(k, v)]) key = getAttr a key := by
  induction a with
  | nil =>
    show (if k = key then some v else getAttr [] key) = getAttr [] key
    rw [if_neg (Ne.symm h)]
  | cons hd tl ih =>
    obtain ⟨k0, v0⟩ := hd
    show (if k0 = key then some v0 else getAttr (tl ++ [(k, v)]) key) =
      if k0 = key then some v0 else getAttr tl key
    by_cases hk : k0 = key
    · rw [if_pos hk, if_pos hk]
    · rw [if_neg hk, if_neg hk, ih]

theorem getAttr_map_replace_self {a : List (String × String)} {key v : String}
    (h : a.any (fun p => p.1 = key) = true) :
    getAttr (a.map (fun p => if p.1 = key then (key, v) else p)) key = some v := by
  induction a with
  | nil => simp at h
  | cons hd tl ih =>
    obtain ⟨k0, v0⟩ := hd
    simp only [List.map_cons]
    by_cases hk : k0 = key
    · show getAttr ((if (k0, v0).1 = key then (key, v) else (k0, v0)) :: _) key =
        some v
      rw [if_pos hk]
      show (if key = key then some v else _) = some v
      rw [if_pos rfl]
    · simp only [List.any_cons, Bool.or_eq_true, decide_eq_true_eq] at h
      rcases h with h | h
      · exact absurd h hk
      · show getAttr ((if (k0, v0).1 = key then (key, v) else (k0, v0)) :: _) key =
          some v
        rw [if_neg hk]
        show (if k0 = key then some v0 else _) = some v
        rw [if_neg hk]
        exact ih h

theorem getAttr_map_replace_ne {a : List (String × String)} {k v key : String}
    (h : key ≠ k) :
    getAttr (a.map (fun p => if p.1 = k then (k, v) else p)) key = getAttr a key := by
  induction a with
  | nil => rfl
  | cons hd tl ih =>
    obtain ⟨k0, v0⟩ := hd
    simp only [List.map_cons]
    by_cases hk : k0 = k
    · show getAttr ((if (k0, v0).1 = k then (k, v) else (k0, v0)) :: _) key =
        if k0 = key then some v0 else getAttr tl key
      rw [if_pos hk]
      show (if k = key then some v else _) = _
      rw [if_neg (Ne.symm h), if_neg (by rw [hk]; exact Ne.symm h), ih]
    · show getAttr ((if (k0, v0).1 = k then (k, v) else (k0, v0)) :: _) key =
        if k0 = key then some v0 else getAttr tl key
      rw [if_neg hk]
      show (if k0 = key then some v0 else _) = if k0 = key then some v0 else _
      by_cases hk0 : k0 = key
      · rw [if_pos hk0, if_pos hk0]
      · rw [if_neg hk0, if_neg hk0, ih]

theorem getAttr_setAttr_self (a : List (String × String)) (key v : String) :
    getAttr (setAttr a key v) key = some v := by
  unfold setAttr
  by_cases h : a.any (fun p => p.1 = key) = true
  · rw [if_pos h]
    exact getAttr_map_replace_self h
  · rw [if_neg h]
    exact getAttr_append_single_self
      (getAttr_none_of_any_false (Bool.eq_false_iff.mpr h))

theorem getAttr_setAttr_ne (a : List (String × String)) {k : String}
    (v : String) {key : String} (h : key ≠ k) :
    getAttr (setAttr a k v) key = getAttr a key := by
  unfold setAttr
  by_cases hc : a.any (fun p => p.1 = k) = true
  · rw [if_pos hc]
    exact getAttr_map_replace_ne h
  · rw [if_neg hc]
    exact getAttr_append_single_ne h

theorem Elem.getA_setA_self (e : Elem) (k v : String) :
    (e.setA k v).getA k = some v :=
  getAttr_setAttr_self e.attrib k v

theorem Elem.getA_setA_ne (e : Elem) {k : String} (v : String) {key : String}
    (h : key ≠ k) : (e.setA k v).getA key = e.getA key :=
  getAttr_setAttr_ne e.attrib v h

theorem numFailureNodes_setA (e : Elem) (k v : String) :
    numFailureNodes (e.setA k v) = numFailureNodes e := by
  cases e
  rfl

theorem Elem.children_setA (e : Elem) (k v : String) :
    (e.setA k v).children = e.children := by
  cases e
  rfl

/- ## Lemmas: decimal round trips -/

theorem digitVal_digitChar {d : Nat} (h : d < 10) : digitVal (digitChar d) = d := by
  interval_cases d <;> rfl

theorem isDigit_digitChar {d : Nat} (h : d < 10) : (digitChar d).isDigit = true := by
  interval_cases d <;> rfl

theorem digitsVal_append_single (l : List Char) (c : Char) :
    digitsVal (l ++ [c]) = 10 * digitsVal l + digitVal c := by
  simp [digitsVal, List.foldl_append]

theorem natToDigitsAux_spec :
    ∀ fuel n, n < fuel →
      digitsVal (natToDigitsAux fuel n) = n ∧
        (natToDigitsAux fuel n).all Char.isDigit = true ∧
        natToDigitsAux fuel n ≠ [] := by
  intro fuel
  induction fuel with
  | zero => intro n hn; omega
  | succ f ih =>
    intro n hn
    by_cases h10 : n < 10
    · refine ⟨?_, ?_, by simp [natToDigitsAux, h10]⟩
      · simp [natToDigitsAux, h10, digitsVal, digitVal_digitChar h10]
      · simp [natToDigitsAux, h10, isDigit_digitChar h10]
    · have hpos : 0 < n := by omega
      have hdiv : n / 10 < n := Nat.div_lt_self hpos (by norm_num)
      have hfuel : n / 10 < f := by omega
      obtain ⟨ihv, iha, ihne⟩ := ih (n / 10) hfuel
      have hmod : n % 10 < 10 := Nat.mod_lt _ (by norm_num)
      refine ⟨?_, ?_, by simp [natToDigitsAux, h10]⟩
      · rw [natToDigitsAux, if_neg h10, digitsVal_append_single, ihv,
          digitVal_digitChar hmod]
        omega
      · rw [natToDigitsAux, if_neg h10, List.all_append, iha]
        simp [isDigit_digitChar hmod]

theorem pyNat?_natToDigits (n : Nat) : pyNat? (natToDigits n) = some n := by
  obtain ⟨hv, ha, hne⟩ := natToDigitsAux_spec (n + 1) n (Nat.lt_succ_self n)
  unfold natToDigits
  unfold pyNat?
  rw [if_neg (by simpa [List.isEmpty_iff] using hne), if_pos ha, hv]

theorem natToDigits_head (n : Nat) :
    ∃ c t, natToDigits n = c :: t ∧ c.isDigit = true := by
  obtain ⟨_, ha, hne⟩ := natToDigitsAux_spec (n + 1) n (Nat.lt_succ_self n)
  have ha2 : (natToDigits n).all Char.isDigit = true := ha
  have hne2 : natToDigits n ≠ [] := hne
  rcases hd : natToDigits n with _ | ⟨c, t⟩
  · exact absurd hd hne2
  · rw [hd] at ha2
    refine ⟨c, t, rfl, ?_⟩
    have := (List.all_eq_true.mp ha2) c (by simp)
    simpa using this

theorem pyInt?_natToString (n : Nat) : pyInt? (natToString n) = some (n : Int) := by
  obtain ⟨c, t, hct, hdig⟩ := natToDigits_head n
  have hd : (natToString n).data = c :: t := hct
  have hc1 : c ≠ '-' := by
    intro h
    rw [h] at hdig
    exact absurd hdig (by decide)
  have hc2 : c ≠ '+' := by
    intro h
    rw [h] at hdig
    exact absurd hdig (by decide)
  rw [pyInt?, hd]
  dsimp only
  rw [if_neg hc1, if_neg hc2, ← hct, pyNat?_natToDigits]
  rfl

/- ## Lemmas: decimal fixed-point arithmetic -/

/- ## Lemmas: the path ordering used by sorted() -/

theorem listCharLt_irrefl : ∀ l : List Char, listCharLt l l = false := by
  intro l
  induction l with
  | nil => rfl
  | cons x xs ih => simpa [listCharLt] using ih

theorem listCharLt_trans :
    ∀ a b c : List Char, listCharLt a b = true → listCharLt b c = true →
      listCharLt a c = true := by
  intro a
  induction a with
  | nil =>
    intro b c hab hbc
    cases b with
    | nil => exact absurd hab (by simp [listCharLt])
    | cons y ys =>
      cases c with
      | nil => exact absurd hbc (by simp [listCharLt])
      | cons z zs => rfl
  | cons x xs ih =>
    intro b c hab hbc
    cases b with
    | nil => exact absurd hab (by simp [listCharLt])
    | cons y ys =>
      cases c with
      | nil => exact absurd hbc (by simp [listCharLt])
      | cons z zs =>
        by_cases hxy : x = y
        · subst hxy
          rw [listCharLt, if_pos rfl] at hab
          by_cases hxz : x = z
          · subst hxz
            rw [listCharLt, if_pos rfl] at hbc
            rw [listCharLt, if_pos rfl]
            exact ih ys zs hab hbc
          · rw [listCharLt, if_neg hxz] at hbc
            rw [listCharLt, if_neg hxz]
            exact hbc
        · rw [listCharLt, if_neg hxy, decide_eq_true_eq] at hab
          by_cases hyz : y = z
          · subst hyz
            rw [listCharLt, if_neg hxy, decide_eq_true_eq]
            exact hab
          · rw [listCharLt, if_neg hyz, decide_eq_true_eq] at hbc
            have hxz : x < z := lt_trans hab hbc
            rw [listCharLt, if_neg (ne_of_lt hxz), decide_eq_true_eq]
            exact hxz

theorem listCharLt_total_of_ne :
    ∀ a b : List Char, a ≠ b →
      listCharLt a b = true ∨ listCharLt b a = true := by
  intro a
  induction a with
  | nil =>
    intro b hne
    cases b with
    | nil => exact absurd rfl hne
    | cons y ys => left; rfl
  | cons x xs ih =>
    intro b hne
    cases b with
    | nil => right; rfl
    | cons y ys =>
      by_cases hxy : x = y
      · subst hxy
        have hne2 : xs ≠ ys := by
          intro hh
          exact hne (by rw [hh])
        rcases ih ys hne2 with h | h
        · left
          rw [listCharLt, if_pos rfl]
          exact h
        · right
          rw [listCharLt, if_pos rfl]
          exact h
      · rcases lt_trichotomy x y with h | h | h
        · left
          rw [listCharLt, if_neg hxy, decide_eq_true_eq]
          exact h
        · exact absurd h hxy
        · right
          rw [listCharLt, if_neg (Ne.symm hxy), decide_eq_true_eq]
          exact h

theorem strLt_irrefl (s : String) : strLt s s = false :=
  listCharLt_irrefl s.data

theorem strLt_trans {a b c : String} (hab : strLt a b = true)
    (hbc : strLt b c = true) : strLt a c = true :=
  listCharLt_trans a.data b.data c.data hab hbc

theorem strLt_total_of_ne {a b : String} (h : a ≠ b) :
    strLt a b = true ∨ strLt b a = true := by
  refine listCharLt_total_of_ne a.data b.data ?_
  intro hh
  apply h
  cases a
  cases b
  exact congrArg String.mk hh

theorem strLt_ne {a b : String} (h : strLt a b = true) : a ≠ b := by
  intro hh
  rw [hh, strLt_irrefl] at h
  exact Bool.false_ne_true h

theorem partsLe_total : ∀ a b : List String,
    partsLe a b = true ∨ partsLe b a = true := by
  intro a
  induction a with
  | nil => intro b; left; rfl
  | cons x xs ih =>
    intro b
    cases b with
    | nil => right; rfl
    | cons y ys =>
      by_cases hxy : x = y
      · subst hxy
        rcases ih ys with h | h
        · left
          rw [partsLe, if_pos rfl]
          exact h
        · right
          rw [partsLe, if_pos rfl]
          exact h
      · rcases strLt_total_of_ne hxy with h | h
        · left
          rw [partsLe, if_neg hxy]
          exact h
        · right
          rw [partsLe, if_neg (Ne.symm hxy)]
          exact h

theorem partsLe_trans : ∀ a b c : List String,
    partsLe a b = true → partsLe b c = true → partsLe a c = true := by
  intro a
  induction a with
  | nil => intro b c _ _; rfl
  | cons x xs ih =>
    intro b c hab hbc
    cases b with
    | nil => exact absurd hab (by simp [partsLe])
    | cons y ys =>
      cases c with
      | nil => exact absurd hbc (by simp [partsLe])
      | cons z zs =>
        by_cases hxy : x = y
        · subst hxy
          rw [partsLe, if_pos rfl] at hab
          by_cases hxz : x = z
          · subst hxz
            rw [partsLe, if_pos rfl] at hbc
            rw [partsLe, if_pos rfl]
            exact ih ys zs hab hbc
          · rw [partsLe, if_neg hxz] at hbc
            rw [partsLe, if_neg hxz]
            exact hbc
        · rw [partsLe, if_neg hxy] at hab
          by_cases hyz : y = z
          · subst hyz
            rw [partsLe, if_neg hxy]
            exact hab
          · rw [partsLe, if_neg hyz] at hbc
            have hxz := strLt_trans hab hbc
            rw [partsLe, if_neg (strLt_ne hxz)]
            exact hxz

instance instIsTotalPathLe : IsTotal String (fun a b => pathLe a b = true) :=
  ⟨fun a b => partsLe_total (pathParts a) (pathParts b)⟩

instance instIsTransPathLe : IsTrans String (fun a b => pathLe a b = true) :=
  ⟨fun _ _ _ hab hbc => partsLe_trans _ _ _ hab hbc⟩


/- ## Lemmas: the per-report fixup -/

theorem fixupReport_getA_ne (r : Elem) (db : String) {key : String}
    (h1 : key ≠ "name") (h2 : key ≠ "failures") :
    (fixupReport r db).getA key = r.getA key := by
  unfold fixupReport
  rw [Elem.getA_setA_ne _ _ h2, Elem.getA_setA_ne _ _ h1]

theorem fixupReport_getA_failures (r : Elem) (db : String) :
    (fixupReport r db).getA "failures" =
      some (natToString (numFailureNodes r)) := by
  unfold fixupReport
  rw [Elem.getA_setA_self, numFailureNodes_setA]

theorem pyIntAttr_fixupReport_tests (r : Elem) (db : String) :
    pyIntAttr (fixupReport r db) "tests" = pyIntAttr r "tests" := by
  unfold pyIntAttr
  rw [fixupReport_getA_ne r db (by decide) (by decide)]

theorem pyIntAttr_fixupReport_errors (r : Elem) (db : String) :
    pyIntAttr (fixupReport r db) "errors" = pyIntAttr r "errors" := by
  unfold pyIntAttr
  rw [fixupReport_getA_ne r db (by decide) (by decide)]

theorem pyFloatAttr_fixupReport_time (r : Elem) (db : String) :
    pyFloatAttr (fixupReport r db) "time" = pyFloatAttr r "time" := by
  unfold pyFloatAttr
  rw [fixupReport_getA_ne r db (by decide) (by decide)]

theorem pyIntAttr_fixupReport_failures (r : Elem) (db : String) :
    pyIntAttr (fixupReport r db) "failures" = some ((numFailureNodes r : Int)) := by
  unfold pyIntAttr
  rw [fixupReport_getA_failures]
  simpa using pyInt?_natToString (numFailureNodes r)

/- ## Lemmas: the aggregation loop -/

theorem aggregateLoop_ok (fs : String → Option Elem) (rep : String → Elem)
    (t e : String → Int) (s : String → F64) :
    ∀ dbs : List String,
      (∀ db ∈ dbs, fs (junit_xml_filename db) = some (rep db)) →
      (∀ db ∈ dbs, pyIntAttr (rep db) "tests" = some (t db)) →
      (∀ db ∈ dbs, pyIntAttr (rep db) "errors" = some (e db)) →
      (∀ db ∈ dbs, pyFloatAttr (rep db) "time" = some (s db)) →
      ∀ tt tte ttf tm acc,
        aggregateLoop fs dbs tt tte ttf tm acc =
          .ok (tt + (dbs.map t).sum, tte + (dbs.map e).sum,
            ttf + (dbs.map (fun db => (numFailureNodes (rep db) : Int))).sum,
            (dbs.map s).foldl F64.add tm,
            acc ++ dbs.map (fun db => fixupReport (rep db) db)) := by
  intro dbs
  induction dbs with
  | nil =>
    intro _ _ _ _ tt tte ttf tm acc
    simp [aggregateLoop]
  | cons d rest ih =>
    intro hrep ht he hs tt tte ttf tm acc
    have hd := hrep d (List.mem_cons_self d rest)
    have htd := ht d (List.mem_cons_self d rest)
    have hed := he d (List.mem_cons_self d rest)
    have hsd := hs d (List.mem_cons_self d rest)
    rw [aggregateLoop, hd]
    dsimp only
    rw [pyIntAttr_fixupReport_tests, htd]
    dsimp only
    rw [pyIntAttr_fixupReport_errors, hed]
    dsimp only
    rw [pyIntAttr_fixupReport_failures]
    dsimp only
    rw [pyFloatAttr_fixupReport_time, hsd]
    dsimp only
    rw [ih (fun db hdb => hrep db (List.mem_cons_of_mem d hdb))
      (fun db hdb => ht db (List.mem_cons_of_mem d hdb))
      (fun db hdb => he db (List.mem_cons_of_mem d hdb))
      (fun db hdb => hs db (List.mem_cons_of_mem d hdb))]
    simp only [List.map_cons, List.sum_cons, List.foldl_cons, List.append_assoc,
      List.singleton_append, add_assoc]

theorem aggregate_junit_xml_files_ok (fs : String → Option Elem)
    (rep : String → Elem) (t e : String → Int) (s : String → F64)
    (dbs : List String) (summary_name : String)
    (hrep : ∀ db ∈ dbs, fs (junit_xml_filename db) = some (rep db))
    (ht : ∀ db ∈ dbs, pyIntAttr (rep db) "tests" = some (t db))
    (he : ∀ db ∈ dbs, pyIntAttr (rep db) "errors" = some (e db))
    (hs : ∀ db ∈ dbs, pyFloatAttr (rep db) "time" = some (s db)) :
    aggregate_junit_xml_files fs dbs summary_name =
      .ok (topElem summary_name (dbs.map t).sum (dbs.map e).sum
        (dbs.map (fun db => (numFailureNodes (rep db) : Int))).sum
        ((dbs.map s).foldl F64.add ⟨0, 0⟩)
        (dbs.map (fun db => fixupReport (rep db) db))) := by
  unfold aggregate_junit_xml_files
  rw [aggregateLoop_ok fs rep t e s dbs hrep ht he hs 0 0 0 ⟨0, 0⟩ []]
  simp

/- ## Lemmas: attributes of the top-level element -/

theorem topElem_attrib (summary_name : String) (tt tte ttf : Int) (tm : F64)
    (children : List Elem) :
    (topElem summary_name tt tte ttf tm children).attrib =
      [("name", summary_name), ("tests", intToString tt),
        ("errors", intToString tte), ("failures", intToString ttf),
        ("time", f64Str tm)] := by
  simp [topElem, setAttr, Elem.attrib]

theorem topElem_getA_tests (summary_name : String) (tt tte ttf : Int)
    (tm : F64) (children : List Elem) :
    (topElem summary_name tt tte ttf tm children).getA "tests" =
      some (intToString tt) := by
  rw [Elem.getA, topElem_attrib]
  simp [getAttr]

theorem topElem_getA_errors (summary_name : String) (tt tte ttf : Int)
    (tm : F64) (children : List Elem) :
    (topElem summary_name tt tte ttf tm children).getA "errors" =
      some (intToString tte) := by
  rw [Elem.getA, topElem_attrib]
  simp [getAttr]

theorem topElem_getA_failures (summary_name : String) (tt tte ttf : Int)
    (tm : F64) (children : List Elem) :
    (topElem summary_name tt tte ttf tm children).getA "failures" =
      some (intToString ttf) := by
  rw [Elem.getA, topElem_attrib]
  simp [getAttr]

theorem topElem_getA_time (summary_name : String) (tt tte ttf : Int)
    (tm : F64) (children : List Elem) :
    (topElem summary_name tt tte ttf tm children).getA "time" =
      some (f64Str tm) := by
  rw [Elem.getA, topElem_attrib]
  simp [getAttr]

theorem topElem_children (summary_name : String) (tt tte ttf : Int)
    (tm : F64) (children : List Elem) :
    (topElem summary_name tt tte ttf tm children).children = children :=
  rfl

/- ## Lemmas: failure of the aggregation step -/

theorem aggregateLoop_error (fs : String → Option Elem) :
    ∀ (dbs : List String) (db : String), db ∈ dbs →
      fs (junit_xml_filename db) = none →
      ∀ tt tte ttf tm acc,
        ∃ msg, aggregateLoop fs dbs tt tte ttf tm acc = .error msg := by
  intro dbs
  induction dbs with
  | nil =>
    intro db h
    simp at h
  | cons d rest ih =>
    intro db hdb hmiss tt tte ttf tm acc
    rcases List.mem_cons.mp hdb with hEq | hmem
    · subst hEq
      rw [aggregateLoop, hmiss]
      exact ⟨_, rfl⟩
    · cases hfs : fs (junit_xml_filename d) with
      | none =>
        rw [aggregateLoop, hfs]
        exact ⟨_, rfl⟩
      | some root =>
        rw [aggregateLoop, hfs]
        dsimp only
        cases h1 : pyIntAttr (fixupReport root d) "tests" with
        | none => exact ⟨_, rfl⟩
        | some t1 =>
          dsimp only
          cases h2 : pyIntAttr (fixupReport root d) "errors" with
          | none => exact ⟨_, rfl⟩
          | some e1 =>
            dsimp only
            cases h3 : pyIntAttr (fixupReport root d) "failures" with
            | none => exact ⟨_, rfl⟩
            | some f1 =>
              dsimp only
              cases h4 : pyFloatAttr (fixupReport root d) "time" with
              | none => exact ⟨_, rfl⟩
              | some s1 =>
                dsimp only
                exact ih db hmem hmiss _ _ _ _ _

theorem aggregate_junit_xml_files_error (fs : String → Option Elem)
    (dbs : List String) (summary_name db : String) (hdb : db ∈ dbs)
    (hmiss : fs (junit_xml_filename db) = none) :
    ∃ msg, aggregate_junit_xml_files fs dbs summary_name = .error msg := by
  obtain ⟨msg, hmsg⟩ := aggregateLoop_error fs dbs db hdb hmiss 0 0 0 ⟨0, 0⟩ []
  exact ⟨msg, by rw [aggregate_junit_xml_files, hmsg]⟩

/- ## Lemmas: the marker-processing loop of main -/

theorem collect_db_files_ok (w : World) :
    ∀ ms : List String, (∀ m ∈ ms, (w.markers m).isSome = true) →
      collect_db_files w ms = .ok (ms.filterMap (successDb w)) := by
  intro ms
  induction ms with
  | nil => intro _; rfl
  | cons m rest ih =>
    intro h
    obtain ⟨⟨bc, exe⟩, hm⟩ :=
      Option.isSome_iff_exists.mp (h m (List.mem_cons_self m rest))
    have ihr := ih (fun x hx => h x (List.mem_cons_of_mem m hx))
    rw [collect_db_files, process_marker_file, hm]
    dsimp only
    cases hik : w.runIkosOk bc (exe ++ IKOS_DB_FILE_EXT) with
    | false =>
      simp only [hik, Bool.false_eq_true, if_false, ihr, List.filterMap_cons]
      simp [successDb, hm, hik]
    | true =>
      simp only [hik, if_true, ihr, List.filterMap_cons]
      simp [successDb, hm, hik, Except.map]

theorem collect_db_files_error (w : World) :
    ∀ (ms : List String) (m : String), m ∈ ms → w.markers m = none →
      ∃ msg, collect_db_files w ms = .error msg := by
  intro ms
  induction ms with
  | nil =>
    intro m h
    simp at h
  | cons m0 rest ih =>
    intro m hm hbad
    rcases List.mem_cons.mp hm with hEq | hmem
    · subst hEq
      rw [collect_db_files, process_marker_file, hbad]
      exact ⟨_, rfl⟩
    · cases hmk : w.markers m0 with
      | none =>
        rw [collect_db_files, process_marker_file, hmk]
        exact ⟨_, rfl⟩
      | some p =>
        obtain ⟨bc, exe⟩ := p
        obtain ⟨msg, hrest⟩ := ih m hmem hbad
        rw [collect_db_files, process_marker_file, hmk]
        dsimp only
        cases hik : w.runIkosOk bc (exe ++ IKOS_DB_FILE_EXT) with
        | false =>
          simp only [hik, Bool.false_eq_true, if_false]
          exact ⟨msg, hrest⟩
        | true =>
          simp only [hik, if_true, hrest]
          exact ⟨msg, rfl⟩

/- ## Concrete fixtures used by witnesses -/

/-- Concrete per-target report: self-reported `failures` says 7 but the
document actually contains 2 failure nodes (one nested in a testcase, one
nested deeper). -/
def witReport1 : Elem :=
  .mk "testsuite"
    [("name", "foo"), ("tests", "3"), ("errors", "1"), ("failures", "7"),
      ("time", "1.5")]
    [.mk "testcase" [("name", "tc1")] [.mk "failure" [("message", "m1")] []],
      .mk "failure" [("message", "m2")] []]

/-- Report map holding `witReport1` at the sibling path of `a.ikosdb`. -/
def wit1fs : String → Option Elem :=
  fun p => if p = "a.junit.xml" then some witReport1 else none

/-- Concrete clean report used by the driver witness. -/
def witReport2 : Elem :=
  .mk "testsuite"
    [("tests", "2"), ("errors", "0"), ("failures", "0"), ("time", "0.5")] []

/-- World with one well-formed marker whose analysis succeeds. -/
def witWorld : World :=
  ⟨fun m => if m = "t.ikosbin" then some ("t.bc", "t") else none,
    fun _ _ => true,
    fun p => if p = "t.junit.xml" then some witReport2 else none⟩

/-- World in which every marker file fails to decode. -/
def badWorld : World :=
  ⟨fun _ => none, fun _ _ => false, fun _ => none⟩

/-- World with no markers, no analyses, no reports. -/
def trivWorld : World :=
  ⟨fun _ => none, fun _ _ => false, fun _ => none⟩

/- ## Claims -/

/-- C6: aggregating an empty list of result-database paths succeeds and
produces the aggregate report with `tests=0`, `errors=0`, `failures=0`,
`time=0.0` and no children, rather than raising an error. -/
theorem claim_C6_empty_aggregate (fs : String → Option Elem)
    (summary_name : String) :
    aggregate_junit_xml_files fs [] summary_name =
      .ok (.mk "testsuites"
        [("name", summary_name), ("tests", "0"), ("errors", "0"),
          ("failures", "0"), ("time", "0.0")] []) :=
  rfl

/-- C8: the report path written by the invoker's report-generation step
(`generate_ikos_report` with the JUnit format extension) equals the
sibling path the aggregator later reads for the same database path. -/
theorem claim_C8_report_paths_agree (ikos_db_path : String) :
    report_filename ikos_db_path "junit.xml" = junit_xml_filename ikos_db_path := by
  show (splitext ikos_db_path).1 ++ "." ++ "junit.xml" =
    (splitext ikos_db_path).1 ++ ".junit.xml"
  rw [String.append_assoc]
  rfl

/-- C4: if the sibling report of any input database path is missing or
fails to parse, the whole aggregation step raises and no aggregate report
is produced. -/
theorem claim_C4_missing_report_fatal (fs : String → Option Elem)
    (dbs : List String) (summary_name db : String) (hdb : db ∈ dbs)
    (hmiss : fs (junit_xml_filename db) = none) :
    (∃ msg, aggregate_junit_xml_files fs dbs summary_name = .error msg) ∧
      ∀ agg, aggregate_junit_xml_files fs dbs summary_name ≠ .ok agg := by
  obtain ⟨msg, h⟩ := aggregate_junit_xml_files_error fs dbs summary_name db hdb hmiss
  refine ⟨⟨msg, h⟩, fun agg hok => ?_⟩
  rw [h] at hok
  exact Except.noConfusion hok

/-- Witness for C4 at a concrete input: one database path whose sibling
report is absent. -/
theorem claim_C4_witness :
    (∃ msg, aggregate_junit_xml_files (fun _ => none) ["b.ikosdb"] "n" =
      .error msg) ∧
      ∀ agg, aggregate_junit_xml_files (fun _ => none) ["b.ikosdb"] "n" ≠
        .ok agg :=
  claim_C4_missing_report_fatal (fun _ => none) ["b.ikosdb"] "n" "b.ikosdb"
    (by decide) rfl

/-- C10: the output file is opened (created or truncated) before any
report is read, so when aggregation fails on a missing or malformed
report the output path is left as an existing empty file. -/
theorem claim_C10_output_not_atomic (fs : String → Option Elem)
    (dbs : List String) (summary_filename summary_name db : String)
    (hdb : db ∈ dbs) (hmiss : fs (junit_xml_filename db) = none) :
    (aggregate_junit_xml_files_run fs dbs summary_filename summary_name).1 =
      OutFile.emptyFile ∧
      ∃ msg, (aggregate_junit_xml_files_run fs dbs summary_filename
        summary_name).2 = .error msg := by
  obtain ⟨msg, h⟩ := aggregate_junit_xml_files_error fs dbs summary_name db hdb hmiss
  constructor
  · rw [aggregate_junit_xml_files_run, h]
  · exact ⟨msg, by rw [aggregate_junit_xml_files_run, h]⟩

/-- Witness for C10 at a concrete input. -/
theorem claim_C10_witness :
    (aggregate_junit_xml_files_run (fun _ => none) ["c.ikosdb"] "out.xml" "n").1 =
      OutFile.emptyFile ∧
      ∃ msg, (aggregate_junit_xml_files_run (fun _ => none) ["c.ikosdb"]
        "out.xml" "n").2 = .error msg :=
  claim_C10_output_not_atomic (fun _ => none) ["c.ikosdb"] "out.xml" "n"
    "c.ikosdb" (by decide) rfl

/-- C1: for reports declaring `tests=t_i`, `errors=e_i`, `time=s_i` and
containing `f_i` actual failure nodes (their self-reported `failures`
attribute is irrelevant and may be absent or wrong), the aggregate root
carries `tests = Σ t_i`, `errors = Σ e_i`, `failures = Σ f_i`, and a
`time` attribute rendering the sum of the `s_i` — the floating-point sum
the program accumulates: the left fold of IEEE binary64 additions over
the parsed values, starting from `0.0`, written with Python `str`. -/
theorem claim_C1_aggregate_totals (fs : String → Option Elem)
    (rep : String → Elem) (t e : String → Int) (s : String → F64)
    (dbs : List String) (summary_name : String)
    (hrep : ∀ db ∈ dbs, fs (junit_xml_filename db) = some (rep db))
    (ht : ∀ db ∈ dbs, pyIntAttr (rep db) "tests" = some (t db))
    (he : ∀ db ∈ dbs, pyIntAttr (rep db) "errors" = some (e db))
    (hs : ∀ db ∈ dbs, pyFloatAttr (rep db) "time" = some (s db)) :
    ∃ agg, aggregate_junit_xml_files fs dbs summary_name = .ok agg ∧
      agg.getA "tests" = some (intToString (dbs.map t).sum) ∧
      agg.getA "errors" = some (intToString (dbs.map e).sum) ∧
      agg.getA "failures" = some (intToString
        (dbs.map (fun db => (numFailureNodes (rep db) : Int))).sum) ∧
      agg.getA "time" = some (f64Str ((dbs.map s).foldl F64.add ⟨0, 0⟩)) :=
  ⟨_, aggregate_junit_xml_files_ok fs rep t e s dbs summary_name hrep ht he hs,
    topElem_getA_tests _ _ _ _ _ _, topElem_getA_errors _ _ _ _ _ _,
    topElem_getA_failures _ _ _ _ _ _, topElem_getA_time _ _ _ _ _ _⟩

/-- Witness for C1 at a concrete input: one report declaring `tests=3`,
`errors=1`, `time=1.5` (the binary64 with significand 6755399441055744
and exponent -52), self-reporting `failures=7` while actually holding 2
failure nodes. -/
theorem claim_C1_witness :
    ∃ agg, aggregate_junit_xml_files wit1fs ["a.ikosdb"] "run.ikos" = .ok agg ∧
      agg.getA "tests" =
        some (intToString ((["a.ikosdb"].map (fun _ => (3 : Int))).sum)) ∧
      agg.getA "errors" =
        some (intToString ((["a.ikosdb"].map (fun _ => (1 : Int))).sum)) ∧
      agg.getA "failures" = some (intToString
        ((["a.ikosdb"].map
          (fun db => (numFailureNodes ((fun _ => witReport1) db) : Int))).sum)) ∧
      agg.getA "time" = some (f64Str
        ((["a.ikosdb"].map (fun _ => (⟨6755399441055744, -52⟩ : F64))).foldl
          F64.add ⟨0, 0⟩)) :=
  claim_C1_aggregate_totals wit1fs (fun _ => witReport1) (fun _ => 3)
    (fun _ => 1) (fun _ => ⟨6755399441055744, -52⟩) ["a.ikosdb"] "run.ikos"
    (by
      intro db hdb
      rw [List.mem_singleton] at hdb
      subst hdb
      rfl)
    (by
      intro db hdb
      rfl)
    (by
      intro db hdb
      rfl)
    (by
      intro db hdb
      rfl)

/-- C2: a report whose self-reported `failures` attribute disagrees with
the number of failure nodes actually present has that attribute rewritten
to the actual count before the value is summed into the running total and
before the node is emitted as a child: every emitted child carries the
recomputed attribute, and the aggregate `failures` total sums the actual
counts. -/
theorem claim_C2_failures_rewritten (fs : String → Option Elem)
    (rep : String → Elem) (t e : String → Int) (s : String → F64)
    (dbs : List String) (summary_name : String)
    (hrep : ∀ db ∈ dbs, fs (junit_xml_filename db) = some (rep db))
    (ht : ∀ db ∈ dbs, pyIntAttr (rep db) "tests" = some (t db))
    (he : ∀ db ∈ dbs, pyIntAttr (rep db) "errors" = some (e db))
    (hs : ∀ db ∈ dbs, pyFloatAttr (rep db) "time" = some (s db)) :
    ∃ agg, aggregate_junit_xml_files fs dbs summary_name = .ok agg ∧
      agg.children = dbs.map (fun db => fixupReport (rep db) db) ∧
      (∀ db ∈ dbs, (fixupReport (rep db) db).getA "failures" =
        some (natToString (numFailureNodes (rep db)))) ∧
      agg.getA "failures" = some (intToString
        (dbs.map (fun db => (numFailureNodes (rep db) : Int))).sum) := by
  refine ⟨_, aggregate_junit_xml_files_ok fs rep t e s dbs summary_name hrep ht he hs,
    topElem_children _ _ _ _ _ _, fun db _ => fixupReport_getA_failures (rep db) db,
    topElem_getA_failures _ _ _ _ _ _⟩

/-- Witness for C2 at a concrete input: the report self-reports
`failures=7` but contains 2 failure nodes. -/
theorem claim_C2_witness :
    ∃ agg, aggregate_junit_xml_files wit1fs ["a.ikosdb"] "run2.ikos" = .ok agg ∧
      agg.children =
        ["a.ikosdb"].map (fun db => fixupReport ((fun _ => witReport1) db) db) ∧
      (∀ db ∈ ["a.ikosdb"],
        (fixupReport ((fun _ => witReport1) db) db).getA "failures" =
          some (natToString (numFailureNodes ((fun _ => witReport1) db)))) ∧
      agg.getA "failures" = some (intToString
        ((["a.ikosdb"].map
          (fun db => (numFailureNodes ((fun _ => witReport1) db) : Int))).sum)) :=
  claim_C2_failures_rewritten wit1fs (fun _ => witReport1) (fun _ => 3)
    (fun _ => 1) (fun _ => ⟨6755399441055744, -52⟩) ["a.ikosdb"] "run2.ikos"
    (by
      intro db hdb
      rw [List.mem_singleton] at hdb
      subst hdb
      rfl)
    (by
      intro db hdb
      rfl)
    (by
      intro db hdb
      rfl)
    (by
      intro db hdb
      rfl)

/-- C3 counterexample: a marker path whose leading segment is the
`CMakeFiles` directory itself (exactly what the glob yields when the scan
root is `.` or the `CMakeFiles` directory) lies beneath a directory named
`CMakeFiles` yet is returned by the scanner, because the filter only
removes paths containing `/CMakeFiles/` with a slash on both sides. -/
theorem claim_C3_counterexample :
    (scan_marker_files ["CMakeFiles/a.ikosbin"] = ["CMakeFiles/a.ikosbin"] ∧
      underCMakeFiles "CMakeFiles/a.ikosbin" = true) ∧
      (scan_marker_files ["a.b/x.ikosbin", "a/x.ikosbin"] =
        ["a/x.ikosbin", "a.b/x.ikosbin"] ∧
        strLt "a.b/x.ikosbin" "a/x.ikosbin" = true) := by
  refine ⟨⟨?_, ?_⟩, ?_, ?_⟩ <;> rfl

/-- C3 (amended): the scanner returns the listed paths ending in the
marker extension sorted in `pathlib`'s path order — lexicographic on the
slash-separated component tuples, which differs from whole-string order
when one directory name extends another — excluding exactly those
containing the substring `/CMakeFiles/` (paths whose leading segment is
`CMakeFiles` are not excluded), and returns the empty list rather than an
error when no path carries the extension. -/
theorem claim_C3_scan_contract (tree : List String) :
    List.Pairwise (fun a b : String => pathLe a b = true)
      (scan_marker_files tree) ∧
      (∀ p, p ∈ scan_marker_files tree ↔
        p ∈ tree ∧ endsWithExt p IKOS_MARKER_FILE_EXT = true ∧
          strContainsSub p "/CMakeFiles/" = false) ∧
      ((∀ p ∈ tree, endsWithExt p IKOS_MARKER_FILE_EXT = false) →
        scan_marker_files tree = []) := by
  refine ⟨?_, ?_, ?_⟩
  · have hs := List.sorted_insertionSort (fun a b : String => pathLe a b = true)
      (tree.filter (fun p => endsWithExt p IKOS_MARKER_FILE_EXT))
    exact List.Pairwise.sublist (List.filter_sublist _) hs
  · intro p
    unfold scan_marker_files
    simp only [List.mem_filter, List.mem_insertionSort, Bool.not_eq_eq_eq_not,
      Bool.not_true, and_assoc]
  · intro h
    have hf : tree.filter (fun p => endsWithExt p IKOS_MARKER_FILE_EXT) = [] :=
      List.filter_eq_nil_iff.mpr (fun a ha => by
        rw [h a ha]
        exact Bool.false_ne_true)
    unfold scan_marker_files
    rw [hf]
    rfl

/-- Witness for C3 (amended) at concrete inputs: a tree with no marker
yields the empty list, and a regular marker path is returned. -/
theorem claim_C3_scan_contract_witness :
    scan_marker_files ["x.txt"] = [] ∧
      "a/b.ikosbin" ∈ scan_marker_files ["a/b.ikosbin"] :=
  ⟨(claim_C3_scan_contract ["x.txt"]).2.2 (by decide),
    ((claim_C3_scan_contract ["a/b.ikosbin"]).2.1 "a/b.ikosbin").mpr (by decide)⟩

/-- C7: whenever the batch is processed to completion (no exception
escapes), `main` returns exit status 0; in particular, when no marker
files are found it returns 0 immediately with no output files. -/
theorem claim_C7_exit_zero (w : World) (tree : List String) (directory : String)
    (xunit_file sarif_file : Option String) :
    (∀ n out, mainRun w tree directory xunit_file sarif_file = .ok (n, out) →
      n = 0) ∧
      (scan_marker_files tree = [] →
        mainRun w tree directory xunit_file sarif_file = .ok (0, none)) := by
  constructor
  · intro n out hok
    simp only [mainRun] at hok
    by_cases hemp : (scan_marker_files tree).isEmpty = true
    · rw [if_pos hemp] at hok
      simp only [Except.ok.injEq, Prod.mk.injEq] at hok
      exact hok.1.symm
    · rw [if_neg hemp] at hok
      cases hc : collect_db_files w (scan_marker_files tree) with
      | error msg =>
        rw [hc] at hok
        exact Except.noConfusion hok
      | ok dbs =>
        rw [hc] at hok
        dsimp only at hok
        cases xunit_file with
        | none =>
          simp only [Except.ok.injEq, Prod.mk.injEq] at hok
          exact hok.1.symm
        | some xf =>
          cases ha : aggregate_junit_xml_files w.reports dbs
              (basename directory ++ ".ikos") with
          | error msg =>
            rw [ha] at hok
            exact Except.noConfusion hok
          | ok agg =>
            rw [ha] at hok
            simp only [Except.ok.injEq, Prod.mk.injEq] at hok
            exact hok.1.symm
  · intro h
    simp [mainRun, h]

/-- Witness for C7 at a concrete input: an empty tree has no markers, the
run completes immediately and returns 0 with no output. -/
theorem claim_C7_witness :
    mainRun trivWorld [] "d" none none = .ok (0, none) ∧ (0 : Nat) = 0 :=
  ⟨(claim_C7_exit_zero trivWorld [] "d" none none).2 rfl,
    (claim_C7_exit_zero trivWorld [] "d" none none).1 0 none
      ((claim_C7_exit_zero trivWorld [] "d" none none).2 rfl)⟩

/-- C9: a marker file that fails to decode (invalid JSON or missing
`bc`/`exe` key) raises an uncaught exception that aborts the whole run,
whereas an analyzer failure on a well-formed marker only makes
`process_marker_file` return no database path, leaving the batch to
continue. -/
theorem claim_C9_bad_marker_aborts (w : World) (tree : List String)
    (directory : String) (xunit_file sarif_file : Option String) (m : String)
    (hm : m ∈ scan_marker_files tree) (hbad : w.markers m = none) :
    (∃ msg, mainRun w tree directory xunit_file sarif_file = .error msg) ∧
      ∀ m2 bc exe, w.markers m2 = some (bc, exe) →
        w.runIkosOk bc (exe ++ IKOS_DB_FILE_EXT) = false →
        process_marker_file w m2 = .ok none := by
  constructor
  · have hne : ¬ (scan_marker_files tree).isEmpty = true := by
      intro hh
      rw [List.isEmpty_iff] at hh
      rw [hh] at hm
      exact absurd hm (List.not_mem_nil m)
    obtain ⟨msg, hc⟩ := collect_db_files_error w (scan_marker_files tree) m hm hbad
    refine ⟨msg, ?_⟩
    simp only [mainRun]
    rw [if_neg hne, hc]
  · intro m2 bc exe hmk hik
    rw [process_marker_file, hmk]
    simp [hik]

/-- Witness for C9 at a concrete input: one marker that fails to decode. -/
theorem claim_C9_witness :
    ∃ msg, mainRun badWorld ["t.ikosbin"] "d" none none = .error msg :=
  (claim_C9_bad_marker_aborts badWorld ["t.ikosbin"] "d" none none "t.ikosbin"
    (by decide) rfl).1

/-- C5: when every scanned marker decodes, the aggregate report's children
are exactly the fixed-up root nodes of the successfully analyzed targets,
one per success with failed targets omitted, in marker-file scan order. -/
theorem claim_C5_children_scan_order (w : World) (tree : List String)
    (directory xf : String) (sarif_file : Option String)
    (rep : String → Elem) (t e : String → Int) (s : String → F64)
    (hne : scan_marker_files tree ≠ [])
    (hmk : ∀ m ∈ scan_marker_files tree, (w.markers m).isSome = true)
    (hrep : ∀ db ∈ (scan_marker_files tree).filterMap (successDb w),
      w.reports (junit_xml_filename db) = some (rep db))
    (ht : ∀ db ∈ (scan_marker_files tree).filterMap (successDb w),
      pyIntAttr (rep db) "tests" = some (t db))
    (he : ∀ db ∈ (scan_marker_files tree).filterMap (successDb w),
      pyIntAttr (rep db) "errors" = some (e db))
    (hs : ∀ db ∈ (scan_marker_files tree).filterMap (successDb w),
      pyFloatAttr (rep db) "time" = some (s db)) :
    ∃ agg, mainRun w tree directory (some xf) sarif_file = .ok (0, some agg) ∧
      agg.children = ((scan_marker_files tree).filterMap (successDb w)).map
        (fun db => fixupReport (rep db) db) := by
  have hnemp : ¬ (scan_marker_files tree).isEmpty = true := by
    intro hh
    exact hne (List.isEmpty_iff.mp hh)
  have hc := collect_db_files_ok w (scan_marker_files tree) hmk
  have ha := aggregate_junit_xml_files_ok w.reports rep t e s
    ((scan_marker_files tree).filterMap (successDb w))
    (basename directory ++ ".ikos") hrep ht he hs
  have hmain : mainRun w tree directory (some xf) sarif_file =
      .ok (0, some (topElem (basename directory ++ ".ikos")
        (((scan_marker_files tree).filterMap (successDb w)).map t).sum
        (((scan_marker_files tree).filterMap (successDb w)).map e).sum
        (((scan_marker_files tree).filterMap (successDb w)).map
          (fun db => (numFailureNodes (rep db) : Int))).sum
        ((((scan_marker_files tree).filterMap (successDb w)).map s).foldl
          F64.add ⟨0, 0⟩)
        (((scan_marker_files tree).filterMap (successDb w)).map
          (fun db => fixupReport (rep db) db)))) := by
    simp only [mainRun]
    rw [if_neg hnemp, hc]
    dsimp only
    rw [ha]
  exact ⟨_, hmain, topElem_children _ _ _ _ _ _⟩

/-- Witness for C5 at a concrete input: one marker, analysis succeeds,
its report parses; the aggregate has exactly that one fixed-up child. -/
theorem claim_C5_witness :
    ∃ agg, mainRun witWorld ["t.ikosbin"] "build" (some "out.xml") none =
      .ok (0, some agg) ∧
      agg.children = ((scan_marker_files ["t.ikosbin"]).filterMap
        (successDb witWorld)).map
          (fun db => fixupReport ((fun _ => witReport2) db) db) := by
  have hlist : (scan_marker_files ["t.ikosbin"]).filterMap (successDb witWorld) =
      ["t.ikosdb"] := rfl
  refine claim_C5_children_scan_order witWorld ["t.ikosbin"] "build" "out.xml"
    none (fun _ => witReport2) (fun _ => 2) (fun _ => 0) (fun _ => ⟨4503599627370496, -53⟩)
    (by decide) (by decide) ?_ ?_ ?_ ?_ <;>
    (intro db hdb
     rw [hlist, List.mem_singleton] at hdb
     subst hdb
     rfl)
